import Mathlib

/-!
Verification development for the options-dashboard script (`src/main.py`).

The script is a straight-line Streamlit program.  We embed the parts the
specification talks about:

* the per-session cache of options-chain snapshots, keyed by
  `f"{stock}_{expiry}"`, with a two-hour validity window
  (lines 57-104 of the source);
* the summary sums (lines 118-121);
* the select / rename / sort / format pipeline applied to the calls and
  puts tables (lines 199-258 and 266-310).

Modelling conventions:

* numeric cells of a pandas table are modelled as `Option ℚ`
  (`none` = `NaN`, i.e. a missing value); exact rationals stand in for
  the script's binary floats;
* Python dictionaries (`st.session_state.cache`, `st.session_state.fetch_times`)
  are modelled as functions `String → Option _`; dictionary assignment is
  pointwise update, dictionary indexing (`d[k]`) raises `KeyError` when the
  key is absent;
* wall-clock instants (`datetime.now()`) are modelled as integers counting
  seconds; `timedelta(hours=CACHE_DURATION_HOURS)` becomes
  `CACHE_DURATION_HOURS * 3600` seconds.  The script calls `datetime.now()`
  twice (once for the validity comparison on line 86, once for the stored
  timestamp on line 97); a single run is modelled with one instant `now`;
* the external provider call `t.option_chain(expiry)` is a parameter of each
  run: an `Except`-value that is either the fetched snapshot or the message
  of the exception it raises.  Each embedded operation also reports how many
  times the provider was consulted (0 or 1), so "does not invoke the
  provider" and "no automatic retry" are statable;
* the error taxonomy follows §7 of the specification: `FetchError` for the
  caught provider failure (lines 98-100), `InvalidSortColumn` for a sort key
  that is not a column (pandas raises `KeyError` from `sort_values`; the
  specification names this failure mode `InvalidSortColumn`), and `KeyError`
  for a plain missing-key dictionary/column access.
-/

/-- Error taxonomy of the script (see §7 of the specification). -/
inductive Err where
  | FetchError (cause : String)
  | InvalidSortColumn (col : String)
  | KeyError (key : String)
deriving DecidableEq, Repr

/-- A cell of a raw pandas table: a numeric value or `NaN` (missing). -/
abbrev RawRow := List (Option ℚ)

/-- A raw pandas `DataFrame`: column labels plus rows of numeric cells,
each row aligned positionally with `cols`. -/
structure Table where
  cols : List String
  rows : List RawRow
deriving DecidableEq, Repr

/-- An options-chain snapshot: the calls table and the puts table returned by
`t.option_chain(expiry)` (source lines 92-96). -/
structure Snapshot where
  calls : Table
  puts : Table
deriving DecidableEq, Repr

/-- The Streamlit session state the script uses: the snapshot cache and the
fetch-time map (source lines 57-61), both Python dictionaries. -/
structure SessionState where
  cache : String → Option Snapshot
  fetch_times : String → Option Int

/-- Source line 9: `CACHE_DURATION_HOURS = 2`. -/
def CACHE_DURATION_HOURS : Int := 2

/-- `timedelta(hours=CACHE_DURATION_HOURS)` in seconds. -/
def CACHE_DURATION : Int := CACHE_DURATION_HOURS * 3600

/-- Source line 12: the fixed ticker allow-list. -/
def TICKERS : List String :=
  ["AAPL", "MSFT", "GOOGL", "AMZN", "META", "NVDA", "TSLA", "SPY"]

/-- Source line 81: `cache_key = f"{stock}_{expiry}"`. -/
def cacheKey (stock expiry : String) : String := stock ++ "_" ++ expiry

/-- Python dictionary assignment `m[k] = v`: pointwise update. -/
def dictSet {α : Type} (m : String → Option α) (k : String) (v : α) :
    String → Option α :=
  fun q => if q = k then some v else m q

/-- Python dictionary indexing `m[k]`: the value, or `KeyError` if absent. -/
def dictGet {α : Type} (m : String → Option α) (k : String) : Except Err α :=
  match m k with
  | some v => .ok v
  | none => .error (.KeyError k)

/-- Source lines 84-87: the cache-validity test.  `cache_valid` is `True`
exactly when both dictionaries hold the key and the time since the stored
fetch instant is strictly below the two-hour window. -/
def cacheValid (st : SessionState) (key : String) (now : Int) : Bool :=
  match st.cache key, st.fetch_times key with
  | some _, some tf => decide (now - tf < CACHE_DURATION)
  | _, _ => false

/-- Source lines 89-100: when the cache is not valid, consult the provider;
on success store the snapshot and the fetch instant under the key, on failure
leave the state alone and halt with the caught error.  Returns the state
after the block, the number of provider calls made (0 or 1), and the error
that halts the script, if any. -/
def fetchPhase (provider : Except String Snapshot) (st : SessionState)
    (key : String) (now : Int) : SessionState × Nat × Option Err :=
  if cacheValid st key now then (st, 0, none)
  else
    match provider with
    | .ok chain =>
        ({ cache := dictSet st.cache key chain,
           fetch_times := dictSet st.fetch_times key now }, 1, none)
    | .error e => (st, 1, some (.FetchError e))

/-- Source lines 81-104: the whole data-resolution step.  After the fetch
phase the script reads `cache[cache_key]` and `fetch_times[cache_key]`
(lines 102-104, plain dictionary indexing).  Returns the session state after
the run, the number of provider calls, and either the halting error or the
snapshot together with its stored fetch instant. -/
def getSnapshot (provider : Except String Snapshot) (st : SessionState)
    (stock expiry : String) (now : Int) :
    SessionState × Nat × Except Err (Snapshot × Int) :=
  let key := cacheKey stock expiry
  match fetchPhase provider st key now with
  | (st1, n, some err) => (st1, n, .error err)
  | (st1, n, none) =>
      match dictGet st1.cache key, dictGet st1.fetch_times key with
      | .ok snap, .ok tf => (st1, n, .ok (snap, tf))
      | .error e, _ => (st1, n, .error e)
      | .ok _, .error e => (st1, n, .error e)

/-- The message the script displays on a fetch failure (source line 99). -/
def errorMessage : Err → String
  | .FetchError cause => "Error fetching data: " ++ cause
  | .InvalidSortColumn col => "KeyError: " ++ col
  | .KeyError key => "KeyError: " ++ key

-- Basic facts about the cache step.

/-! ### Numeric display formatting

The script renders cell values with Python format strings:
`f"{x:.2f}"`, `f"{x*100:.1f}%"`, `f"{int(x):,}"`, `f"{x:.4f}"`.
With cells modelled as exact rationals, `f"{x:.d f}"` is the value rounded
to `d` decimal places with ties to even (Python's float formatting rounds
the represented value to nearest, ties to even), rendered with exactly `d`
fractional digits; `int(x)` truncates toward zero; `{:,}` groups the integer
digits in threes with commas.  The rounding is computed directly on the
numerator/denominator pair of the (already reduced) rational. -/

/-- Python `int(x)`: truncation toward zero. -/
def pyInt (x : ℚ) : Int := x.num.tdiv x.den

/-- Round `num / den * 10^d` to the nearest integer, ties to even. -/
def fixedDigits (d : Nat) (num : Int) (den : Nat) : Int :=
  let n : Int := num * (10 ^ d : Nat)
  let q : Int := n.fdiv den
  let r : Int := n - q * den
  if 2 * r < den then q
  else if (den : Int) < 2 * r then q + 1
  else if q % 2 = 0 then q else q + 1

/-- Pad a digit string on the left with zeros up to width `d`. -/
def padZeros (d : Nat) (s : String) : String :=
  String.mk (List.replicate (d - s.length) '0') ++ s

/-- Python `f"{x:.d f}"` (for `d ≥ 1`): fixed-point rendering with `d`
fractional digits, rounding to nearest with ties to even. -/
def toFixed (d : Nat) (x : ℚ) : String :=
  let s := fixedDigits d x.num x.den
  let sign := if s < 0 then "-" else ""
  let a := s.natAbs
  sign ++ Nat.repr (a / 10 ^ d) ++ "." ++ padZeros d (Nat.repr (a % 10 ^ d))

/-- Group a reversed digit list in threes (least-significant group first). -/
def chunk3 : List Char → List (List Char)
  | [] => []
  | [a] => [[a]]
  | [a, b] => [[a, b]]
  | a :: b :: c :: rest => [a, b, c] :: chunk3 rest

/-- Python `f"{n:,}"` for a natural number: decimal digits grouped in
threes with commas. -/
def withCommas (n : Nat) : String :=
  let groups := ((chunk3 (Nat.repr n).data.reverse).map List.reverse).reverse
  String.intercalate "," (groups.map String.mk)

/-- Source line 246: `lambda x: f"${x:.2f}" if pd.notna(x) else "N/A"`. -/
def fmtPremium : Option ℚ → String
  | some x => "$" ++ toFixed 2 x
  | none => "N/A"

/-- Source lines 248/250: `lambda x: f"{int(x):,}" if pd.notna(x) else "0"`
(used for both the Volume and the OI column). -/
def fmtIntComma : Option ℚ → String
  | some x =>
      let i := pyInt x
      (if i < 0 then "-" else "") ++ withCommas i.natAbs
  | none => "0"

/-- Source line 252: `lambda x: f"{x*100:.1f}%" if pd.notna(x) else "N/A"`. -/
def fmtIV : Option ℚ → String
  | some x => toFixed 1 (x * 100) ++ "%"
  | none => "N/A"

/-- Source line 256: `lambda x: f"{x:.4f}" if pd.notna(x) else "N/A"`
(used for each of the four Greek columns). -/
def fmtGreek : Option ℚ → String
  | some x => toFixed 4 x
  | none => "N/A"

/-! ### The table pipeline (source lines 199-258 for calls, 266-310 for puts)

A display table (`DTable`) is the result of the formatting pass: the
formatted columns hold strings, the untouched columns (notably `Strike`)
keep their numeric cells. -/

/-- A display cell: still numeric, or already formatted to a string. -/
inductive Cell where
  | num (v : Option ℚ)
  | str (s : String)
deriving DecidableEq, Repr

/-- A display table: column labels plus rows of display cells. -/
structure DTable where
  cols : List String
  rows : List (List Cell)
deriving DecidableEq, Repr

/-- Source line 199: `base_cols`. -/
def base_cols : List String :=
  ["strike", "lastPrice", "volume", "openInterest", "impliedVolatility"]

/-- Source line 200: `optional_cols`. -/
def optional_cols : List String := ["delta", "theta", "gamma", "vega"]

/-- Source lines 202/266: `[col for col in base_cols + optional_cols if col
in df.columns]`. -/
def presentCols (t : Table) : List String :=
  (base_cols ++ optional_cols).filter (fun c => c ∈ t.cols)

/-- Column selection `df[cs]` (source lines 203/267): keep the columns `cs`,
in that order, each row projected positionally.  Column labels are assumed
unique (true of the provider's tables), so the first index of a label is
its index. -/
def select (t : Table) (cs : List String) : Table :=
  { cols := cs,
    rows := t.rows.map (fun r => cs.map (fun c => r.getD (t.cols.indexOf c) none)) }

/-- Source lines 206-212: the fixed rename dictionary for the base columns. -/
def baseRenameMap : List (String × String) :=
  [("strike", "Strike"), ("lastPrice", "Premium"), ("volume", "Volume"),
   ("openInterest", "OI"), ("impliedVolatility", "IV")]

/-- Source lines 214-216: extend the rename dictionary with
`greek.capitalize()` for each optional column present in the CALLS table.
(The script builds this dictionary once, from the calls table, and reuses it
for the puts table on line 270.) -/
def mkRenameMap (callsCols : List String) : List (String × String) :=
  baseRenameMap ++
    (optional_cols.filter (fun g => g ∈ callsCols)).map
      (fun g => (g, g.capitalize))

/-- Apply a rename dictionary to one column label: `df.rename` leaves labels
that are not keys of the dictionary unchanged. -/
def renameCol (m : List (String × String)) (c : String) : String :=
  match m.lookup c with
  | some n => n
  | none => c

/-- `df.rename(columns=m)` (source lines 218/270). -/
def rename (t : Table) (m : List (String × String)) : Table :=
  { t with cols := t.cols.map (renameCol m) }

/-- The sort key of a row: the cell at column index `i` (`none` = `NaN`),
with `0` standing in for the value of a missing cell (never consulted for
rows whose key is present). -/
def keyAt (i : Nat) (r : RawRow) : ℚ := (r.getD i none).getD 0

/-- Comparison of two rows by the sort column at index `i`. -/
def rowLe (i : Nat) (a b : RawRow) : Prop := keyAt i a ≤ keyAt i b

instance (i : Nat) : DecidableRel (rowLe i) :=
  fun a b => inferInstanceAs (Decidable (keyAt i a ≤ keyAt i b))

/-- `df.sort_values(by=b, ascending=asc)` (source lines 238-241/290-293).
Pandas raises `KeyError` when `b` is not a column (the specification's
`InvalidSortColumn`).  Otherwise, with the default `na_position='last'`,
rows whose sort key is missing are moved to the end — in their original
relative order — for both sort directions, and the remaining rows are
sorted by the key.  A descending sort is the reverse of an ascending sort of
the reversed row list (exactly pandas' `nargsort`).  Pandas' default sort
kind is `quicksort`, whose order among rows with equal keys is
implementation-defined; the embedding uses a stable kind, and no theorem
below about ties of this function is asserted for the script. -/
def sortValues (t : Table) (b : String) (asc : Bool) : Except Err Table :=
  if b ∈ t.cols then
    let i := t.cols.indexOf b
    let nonMissing := t.rows.filter (fun r => (r.getD i none).isSome)
    let missing := t.rows.filter (fun r => !(r.getD i none).isSome)
    let sorted :=
      if asc then List.insertionSort (rowLe i) nonMissing
      else (List.insertionSort (rowLe i) nonMissing.reverse).reverse
    .ok { cols := t.cols, rows := sorted ++ missing }
  else .error (.InvalidSortColumn b)

/-- Lift a raw table to a display table (all cells still numeric). -/
def toDTable (t : Table) : DTable :=
  { cols := t.cols, rows := t.rows.map (fun r => r.map Cell.num) }

/-- Apply a value formatter to one display cell.  The script applies each
column formatter once, to numeric cells; a string cell is never hit. -/
def cellMap (f : Option ℚ → String) : Cell → Cell
  | .num v => .str (f v)
  | .str s => .str s

/-- Formatting one column of one row: set position `indexOf c` when the
column is present, as `df[c] = df[c].apply(f)` does. -/
def applyFmtRow (cols : List String) (c : String) (f : Option ℚ → String)
    (r : List Cell) : List Cell :=
  if c ∈ cols then
    let i := cols.indexOf c
    r.set i (cellMap f (r.getD i (.num none)))
  else r

/-- `if c in df.columns: df[c] = df[c].apply(f)` (source lines 245-256). -/
def applyFmt (t : DTable) (c : String) (f : Option ℚ → String) : DTable :=
  { cols := t.cols, rows := t.rows.map (applyFmtRow t.cols c f) }

/-- The per-column formatter sequence of source lines 245-256: Premium,
Volume, OI, IV, then the four Greek columns. -/
def fmtSteps : List (String × (Option ℚ → String)) :=
  [("Premium", fmtPremium), ("Volume", fmtIntComma), ("OI", fmtIntComma),
   ("IV", fmtIV),
   ("Delta", fmtGreek), ("Theta", fmtGreek), ("Gamma", fmtGreek),
   ("Vega", fmtGreek)]

/-- Source lines 244-256 (resp. 296-308): the whole formatting pass over the
sorted table. -/
def formatDisplay (t : Table) : DTable :=
  fmtSteps.foldl (fun acc p => applyFmt acc p.1 p.2) (toDTable t)

/-- The select / rename half of the pipeline, with the rename dictionary as
a parameter (the script reuses the calls-derived dictionary for the puts
table). -/
def projectRename (raw : Table) (m : List (String × String)) : Table :=
  rename (select raw (presentCols raw)) m

/-- The full table pipeline for the calls table (source lines 199-258):
project, rename with the dictionary built from this table's own columns,
sort, then format.  This is the specification's `format_table` routine. -/
def format_table (raw : Table) (sortCol : String) (asc : Bool) :
    Except Err DTable :=
  (sortValues (projectRename raw (mkRenameMap (presentCols raw))) sortCol asc).map
    formatDisplay

/-- The full table pipeline as the script runs it for the puts table
(source lines 266-310): project the puts columns, but rename with the
dictionary that was built from the CALLS table (line 270). -/
def format_table_puts (callsRaw putsRaw : Table) (sortCol : String)
    (asc : Bool) : Except Err DTable :=
  (sortValues (projectRename putsRaw (mkRenameMap (presentCols callsRaw)))
      sortCol asc).map formatDisplay

/-- The projected-and-renamed column list of `format_table` on `raw`. -/
def projectedRenamedCols (raw : Table) : List String :=
  (projectRename raw (mkRenameMap (presentCols raw))).cols

/-! ### Summary sums (source lines 118-121) -/

/-- `df[c].sum()` (pandas sums with `skipna=True`: missing values
contribute nothing); `KeyError` when the column is absent. -/
def colSum (t : Table) (c : String) : Except Err ℚ :=
  if c ∈ t.cols then
    .ok ((t.rows.map (fun r => (r.getD (t.cols.indexOf c) none).getD 0)).sum)
  else .error (.KeyError c)

/-- Source lines 118-121: the four summary totals, each `int(df[c].sum())`,
in source order. -/
def summarize (calls puts : Table) : Except Err (Int × Int × Int × Int) := do
  let callsOI ← colSum calls "openInterest"
  let callsVolume ← colSum calls "volume"
  let putsOI ← colSum puts "openInterest"
  let putsVolume ← colSum puts "volume"
  return (pyInt callsOI, pyInt callsVolume, pyInt putsOI, pyInt putsVolume)

/-! ### One full run of the script -/

/-- Everything the script renders for one request. -/
structure PageOutput where
  summary : Int × Int × Int × Int
  callsTable : DTable
  putsTable : DTable
deriving DecidableEq, Repr

/-- One run of the script body after the ticker/expiry selection: resolve
the snapshot through the cache (lines 81-104), compute the summary
(lines 118-121), then build the calls and puts display tables
(lines 199-258 and 266-310).  Returns the session state left for the next
run, the number of provider calls, and either the halting error (nothing is
rendered past it) or the rendered page. -/
def scriptRun (provider : Except String Snapshot) (st : SessionState)
    (stock expiry : String) (now : Int)
    (callsSortCol : String) (callsAsc : Bool)
    (putsSortCol : String) (putsAsc : Bool) :
    SessionState × Nat × Except Err PageOutput :=
  match getSnapshot provider st stock expiry now with
  | (st1, n, .error e) => (st1, n, .error e)
  | (st1, n, .ok (snap, _)) =>
      match summarize snap.calls snap.puts with
      | .error e => (st1, n, .error e)
      | .ok summ =>
          let rmap := mkRenameMap (presentCols snap.calls)
          match sortValues (projectRename snap.calls rmap) callsSortCol callsAsc with
          | .error e => (st1, n, .error e)
          | .ok callsSorted =>
              match sortValues (projectRename snap.puts rmap) putsSortCol putsAsc with
              | .error e => (st1, n, .error e)
              | .ok putsSorted =>
                  (st1, n, .ok { summary := summ,
                                 callsTable := formatDisplay callsSorted,
                                 putsTable := formatDisplay putsSorted })

def emptyTable : Table := { cols := [], rows := [] }

def snapW : Snapshot := { calls := emptyTable, puts := emptyTable }

/-- A session state with nothing cached. -/
def stEmpty : SessionState := { cache := fun _ => none, fetch_times := fun _ => none }

/-- A session state holding `snap` fetched at instant `tf` under every key. -/
def stFull (snap : Snapshot) (tf : Int) : SessionState :=
  { cache := fun _ => some snap, fetch_times := fun _ => some tf }

/-- A small calls table fixture: `openInterest` column `[100, 200, missing]`
(the specification's summary scenario), `volume` column `[10, missing, 0]`. -/
def cW : Table :=
  { cols := ["strike", "lastPrice", "volume", "openInterest", "impliedVolatility"],
    rows := [[some 500, some 2, some 10, some 100, none],
             [some 510, none, none, some 200, none],
             [some 520, some 1, some 0, none, none]] }

/-- A small puts table fixture. -/
def pW : Table :=
  { cols := ["strike", "lastPrice", "volume", "openInterest", "impliedVolatility"],
    rows := [[some 5, some 1, some 4, some 7, none],
             [some 6, some 2, some 6, some 8, none]] }

-- Equality of `Except` values is decidable when both components' are.
instance {ε α : Type} [DecidableEq ε] [DecidableEq α] :
    DecidableEq (Except ε α) := fun x y =>
  match x, y with
  | .ok a, .ok b =>
      if h : a = b then isTrue (by rw [h]) else isFalse (by simp [h])
  | .error a, .error b =>
      if h : a = b then isTrue (by rw [h]) else isFalse (by simp [h])
  | .ok _, .error _ => isFalse (by simp)
  | .error _, .ok _ => isFalse (by simp)

/-- The fixed column-rename mapping stated in the specification (§4.2
Step 2); labels outside the fixed list are left unchanged.  This is the
specification's wording, used to compare the script's rename dictionary
against it. -/
def fixedRename : String → String
  | "strike" => "Strike"
  | "lastPrice" => "Premium"
  | "volume" => "Volume"
  | "openInterest" => "OI"
  | "impliedVolatility" => "IV"
  | "delta" => "Delta"
  | "theta" => "Theta"
  | "gamma" => "Gamma"
  | "vega" => "Vega"
  | c => c

/-- A calls table with no Greek columns. -/
def cNoGreek : Table :=
  { cols := ["strike", "lastPrice"], rows := [[some 1, some 2]] }

/-- A puts table carrying a `delta` column. -/
def pGreek : Table :=
  { cols := ["strike", "lastPrice", "delta"], rows := [[some 1, some 2, some 3]] }

/-- The projected and renamed table that the sort of `format_table`
operates on. -/
def renamedTable (raw : Table) : Table :=
  projectRename raw (mkRenameMap (presentCols raw))

/-- The sort-column values (`none` = missing) of `format_table`'s sort on
`raw` by column `b`, in input row order. -/
def sortKeys (raw : Table) (b : String) : List (Option ℚ) :=
  (renamedTable raw).rows.map
    (fun r => r.getD ((renamedTable raw).cols.indexOf b) none)

/-- A table whose `lastPrice` column is `[1, missing]`: two distinct sort
keys, no duplicates. -/
def tMix : Table :=
  { cols := ["strike", "lastPrice"],
    rows := [[some 5, some 1], [some 6, none]] }

/-- The specification's per-cell formatting formula (§4.2 Step 4): Premium
gets a dollar prefix and 2 decimals, Volume and OI become comma-grouped
integers, IV is scaled to a percentage with 1 decimal, the four Greeks get
4 decimals, missing values become `"N/A"` (or `"0"` for Volume/OI), and any
other column — notably Strike — is left as its numeric value. -/
def cellSpec (c : String) (v : Option ℚ) : Cell :=
  if c = "Premium" then .str (fmtPremium v)
  else if c = "Volume" then .str (fmtIntComma v)
  else if c = "OI" then .str (fmtIntComma v)
  else if c = "IV" then .str (fmtIV v)
  else if c = "Delta" ∨ c = "Theta" ∨ c = "Gamma" ∨ c = "Vega" then
    .str (fmtGreek v)
  else .num v

/-- A table whose `lastPrice` column is `[2, 1]`: duplicate-free and fully
present sort keys. -/
def tC5 : Table :=
  { cols := ["strike", "lastPrice"],
    rows := [[some 5, some 2], [some 6, some 1]] }

-- ---------------------------------------------------------------
-- Theorems
-- ---------------------------------------------------------------

theorem dictSet_self {α : Type} (m : String → Option α) (k : String) (v : α) :
    dictSet m k v k = some v := by
  simp [dictSet]

theorem dictSet_other {α : Type} (m : String → Option α) (k q : String)
    (v : α) (h : q ≠ k) : dictSet m k v q = m q := by
  simp [dictSet, h]

theorem cacheValid_iff (st : SessionState) (key : String) (now : Int) :
    cacheValid st key now = true ↔
      ∃ snap tf, st.cache key = some snap ∧ st.fetch_times key = some tf ∧
        now - tf < CACHE_DURATION := by
  unfold cacheValid
  cases st.cache key <;> cases st.fetch_times key <;> simp

theorem fetchPhase_valid (p : Except String Snapshot) (st : SessionState)
    (key : String) (now : Int) (hv : cacheValid st key now = true) :
    fetchPhase p st key now = (st, 0, none) := by
  simp [fetchPhase, hv]

theorem fetchPhase_invalid_ok (chain : Snapshot) (st : SessionState)
    (key : String) (now : Int) (hv : cacheValid st key now = false) :
    fetchPhase (.ok chain) st key now =
      ({ cache := dictSet st.cache key chain,
         fetch_times := dictSet st.fetch_times key now }, 1, none) := by
  simp [fetchPhase, hv]

theorem fetchPhase_invalid_err (e : String) (st : SessionState)
    (key : String) (now : Int) (hv : cacheValid st key now = false) :
    fetchPhase (.error e) st key now = (st, 1, some (.FetchError e)) := by
  simp [fetchPhase, hv]

/-- On a valid cache entry, `getSnapshot` is a pure read: the state is left
alone, the provider is never consulted, and the stored snapshot and its
stored fetch instant come back. -/
theorem getSnapshot_valid (p : Except String Snapshot) (st : SessionState)
    (stock expiry : String) (now : Int) (snap : Snapshot) (tf : Int)
    (hc : st.cache (cacheKey stock expiry) = some snap)
    (ht : st.fetch_times (cacheKey stock expiry) = some tf)
    (hlt : now - tf < CACHE_DURATION) :
    getSnapshot p st stock expiry now = (st, 0, .ok (snap, tf)) := by
  have hv : cacheValid st (cacheKey stock expiry) now = true := by
    rw [cacheValid_iff]; exact ⟨snap, tf, hc, ht, hlt⟩
  simp [getSnapshot, fetchPhase_valid p st _ now hv, dictGet, hc, ht]

/-- On an invalid (absent or expired) cache entry with a successful provider
call, `getSnapshot` stores the fresh snapshot and instant under the key and
returns them, having consulted the provider exactly once. -/
theorem getSnapshot_invalid_ok (chain : Snapshot) (st : SessionState)
    (stock expiry : String) (now : Int)
    (hv : cacheValid st (cacheKey stock expiry) now = false) :
    getSnapshot (.ok chain) st stock expiry now =
      ({ cache := dictSet st.cache (cacheKey stock expiry) chain,
         fetch_times := dictSet st.fetch_times (cacheKey stock expiry) now },
        1, .ok (chain, now)) := by
  simp [getSnapshot, fetchPhase_invalid_ok chain st _ now hv, dictGet, dictSet_self]

/-- On an invalid (absent or expired) cache entry with a failing provider
call, `getSnapshot` halts with the caught error and leaves the state alone,
having consulted the provider exactly once. -/
theorem getSnapshot_invalid_err (e : String) (st : SessionState)
    (stock expiry : String) (now : Int)
    (hv : cacheValid st (cacheKey stock expiry) now = false) :
    getSnapshot (.error e) st stock expiry now =
      (st, 1, .error (.FetchError e)) := by
  simp [getSnapshot, fetchPhase_invalid_err e st _ now hv]

/-- A successful `getSnapshot` leaves the returned snapshot and instant
stored under the key, and consults the provider at most once. -/
theorem getSnapshot_ok_state (provider : Except String Snapshot)
    (st : SessionState) (stock expiry : String) (now : Int)
    (st1 : SessionState) (n : Nat) (snap : Snapshot) (tf : Int)
    (h : getSnapshot provider st stock expiry now = (st1, n, .ok (snap, tf))) :
    st1.cache (cacheKey stock expiry) = some snap ∧
      st1.fetch_times (cacheKey stock expiry) = some tf ∧ n ≤ 1 := by
  by_cases hv : cacheValid st (cacheKey stock expiry) now = true
  · obtain ⟨s0, t0, hc, ht, hlt⟩ := (cacheValid_iff st _ now).mp hv
    rw [getSnapshot_valid provider st stock expiry now s0 t0 hc ht hlt] at h
    simp only [Prod.mk.injEq, Except.ok.injEq] at h
    obtain ⟨h1, h2, h3, h4⟩ := h
    subst h1; subst h2; subst h3; subst h4
    exact ⟨hc, ht, by omega⟩
  · rw [Bool.not_eq_true] at hv
    cases provider with
    | error e =>
        rw [getSnapshot_invalid_err e st stock expiry now hv] at h
        simp at h
    | ok chain =>
        rw [getSnapshot_invalid_ok chain st stock expiry now hv] at h
        simp only [Prod.mk.injEq, Except.ok.injEq] at h
        obtain ⟨h1, h2, h3, h4⟩ := h
        subst h1; subst h2; subst h3; subst h4
        exact ⟨dictSet_self .., dictSet_self .., by omega⟩

-- Concrete fixtures used by the witnesses below.

/-- C1: for every (ticker, expiry) pair, if a cache entry exists for the key
and the time elapsed since its fetch timestamp is strictly less than the
cache duration (2 hours), then `get_snapshot` returns the stored snapshot
unchanged (state untouched, provider not invoked); and any two calls the
second of which falls within the validity window left by the first invoke
the provider at most once in total. -/
theorem claim_C1 (stock expiry : String) (st : SessionState)
    (p : Except String Snapshot) (snap : Snapshot) (tf now : Int)
    (hc : st.cache (cacheKey stock expiry) = some snap)
    (ht : st.fetch_times (cacheKey stock expiry) = some tf)
    (hv : now - tf < CACHE_DURATION) :
    getSnapshot p st stock expiry now = (st, 0, .ok (snap, tf)) ∧
    (∀ (p1 p2 : Except String Snapshot) (st0 st1 : SessionState)
        (t1 t2 : Int) (s1 : Snapshot) (tf1 : Int) (n1 : Nat),
        getSnapshot p1 st0 stock expiry t1 = (st1, n1, .ok (s1, tf1)) →
        t2 - tf1 < CACHE_DURATION →
        getSnapshot p2 st1 stock expiry t2 = (st1, 0, .ok (s1, tf1)) ∧
          n1 + 0 ≤ 1) := by
  constructor
  · exact getSnapshot_valid p st stock expiry now snap tf hc ht hv
  · intro p1 p2 st0 st1 t1 t2 s1 tf1 n1 h1 h2
    obtain ⟨hc1, ht1, hn1⟩ :=
      getSnapshot_ok_state p1 st0 stock expiry t1 st1 n1 s1 tf1 h1
    exact ⟨getSnapshot_valid p2 st1 stock expiry t2 s1 tf1 hc1 ht1 h2,
      by omega⟩

theorem claim_C1_witness :
    (stFull snapW 0).cache (cacheKey "SPY" "2024-06-21") = some snapW ∧
    (stFull snapW 0).fetch_times (cacheKey "SPY" "2024-06-21") = some 0 ∧
    (100 : Int) - 0 < CACHE_DURATION ∧
    getSnapshot (.ok snapW) (stFull snapW 0) "SPY" "2024-06-21" 100 =
      (stFull snapW 0, 0, .ok (snapW, 0)) :=
  ⟨rfl, rfl, by decide,
    (claim_C1 "SPY" "2024-06-21" (stFull snapW 0) (.ok snapW) snapW 0 100
      rfl rfl (by decide)).1⟩

/-- C2: for every (ticker, expiry) pair, calling `get_snapshot` once the
validity window has elapsed invokes the provider again and overwrites the
stored entry and its fetch timestamp under the same key with the new
snapshot and instant (all other keys untouched — the entry is replaced, not
appended to). -/
theorem claim_C2 (stock expiry : String) (st : SessionState)
    (chain snap0 : Snapshot) (tf now : Int)
    (hc : st.cache (cacheKey stock expiry) = some snap0)
    (ht : st.fetch_times (cacheKey stock expiry) = some tf)
    (helapsed : CACHE_DURATION ≤ now - tf) :
    ∃ st2, getSnapshot (.ok chain) st stock expiry now =
        (st2, 1, .ok (chain, now)) ∧
      st2.cache (cacheKey stock expiry) = some chain ∧
      st2.fetch_times (cacheKey stock expiry) = some now ∧
      (∀ k, k ≠ cacheKey stock expiry →
        st2.cache k = st.cache k ∧ st2.fetch_times k = st.fetch_times k) := by
  have hv : cacheValid st (cacheKey stock expiry) now = false := by
    unfold cacheValid
    rw [hc, ht]
    simp only [decide_eq_false_iff_not, not_lt]
    exact helapsed
  refine ⟨_, getSnapshot_invalid_ok chain st stock expiry now hv,
    dictSet_self .., dictSet_self .., ?_⟩
  intro k hk
  exact ⟨dictSet_other _ _ _ _ hk, dictSet_other _ _ _ _ hk⟩

theorem claim_C2_witness :
    (stFull snapW 0).cache (cacheKey "SPY" "2024-06-21") = some snapW ∧
    (stFull snapW 0).fetch_times (cacheKey "SPY" "2024-06-21") = some 0 ∧
    CACHE_DURATION ≤ (7200 : Int) - 0 ∧
    (∃ st2, getSnapshot (.ok snapW) (stFull snapW 0) "SPY" "2024-06-21" 7200 =
        (st2, 1, .ok (snapW, 7200)) ∧
      st2.cache (cacheKey "SPY" "2024-06-21") = some snapW ∧
      st2.fetch_times (cacheKey "SPY" "2024-06-21") = some 7200 ∧
      (∀ k, k ≠ cacheKey "SPY" "2024-06-21" →
        st2.cache k = (stFull snapW 0).cache k ∧
          st2.fetch_times k = (stFull snapW 0).fetch_times k)) :=
  ⟨rfl, rfl, by decide,
    claim_C2 "SPY" "2024-06-21" (stFull snapW 0) snapW snapW 0 7200
      rfl rfl (by decide)⟩

/-- C3: for every (ticker, expiry) request, if the provider call fails, the
run fails with a `FetchError` carrying the underlying cause, the visible
message is the error text built from that cause, processing halts (no page
output is produced — in particular no stale or partial data takes the place
of the missing result), and the provider was consulted exactly once (no
automatic retry). -/
theorem claim_C3 (stock expiry : String) (st : SessionState) (cause : String)
    (now : Int) (callsSortCol putsSortCol : String) (callsAsc putsAsc : Bool)
    (hv : cacheValid st (cacheKey stock expiry) now = false) :
    scriptRun (.error cause) st stock expiry now callsSortCol callsAsc
        putsSortCol putsAsc =
      (st, 1, .error (.FetchError cause)) ∧
    errorMessage (.FetchError cause) = "Error fetching data: " ++ cause := by
  constructor
  · unfold scriptRun
    rw [getSnapshot_invalid_err cause st stock expiry now hv]
  · rfl

theorem claim_C3_witness :
    cacheValid stEmpty (cacheKey "SPY" "2024-06-21") 100 = false ∧
    scriptRun (.error "boom") stEmpty "SPY" "2024-06-21" 100 "Strike" true
        "Strike" true =
      (stEmpty, 1, .error (.FetchError "boom")) ∧
    errorMessage (.FetchError "boom") = "Error fetching data: " ++ "boom" :=
  ⟨rfl,
    claim_C3 "SPY" "2024-06-21" stEmpty "boom" 100 "Strike" "Strike" true true
      rfl⟩

/-- C10: if the provider fetch for a (ticker, expiry) key raises an
exception, the run halts with the caught error and the session state — both
the cache map and the fetch-times map — is returned exactly as it was: no
entry is created, replaced or half-written for the key, so a later request
starts from the same state. -/
theorem claim_C10 (stock expiry : String) (st : SessionState) (cause : String)
    (now : Int)
    (hv : cacheValid st (cacheKey stock expiry) now = false) :
    getSnapshot (.error cause) st stock expiry now =
      (st, 1, .error (.FetchError cause)) ∧
    (getSnapshot (.error cause) st stock expiry now).1.cache = st.cache ∧
    (getSnapshot (.error cause) st stock expiry now).1.fetch_times =
      st.fetch_times := by
  have h := getSnapshot_invalid_err cause st stock expiry now hv
  exact ⟨h, by rw [h], by rw [h]⟩

theorem claim_C10_witness :
    cacheValid stEmpty (cacheKey "AAPL" "2024-06-21") 42 = false ∧
    (getSnapshot (.error "down") stEmpty "AAPL" "2024-06-21" 42 =
      (stEmpty, 1, .error (.FetchError "down")) ∧
    (getSnapshot (.error "down") stEmpty "AAPL" "2024-06-21" 42).1.cache =
      stEmpty.cache ∧
    (getSnapshot (.error "down") stEmpty "AAPL" "2024-06-21" 42).1.fetch_times =
      stEmpty.fetch_times) :=
  ⟨rfl, claim_C10 "AAPL" "2024-06-21" stEmpty "down" 42 rfl⟩

/-- C8: `summarize` returns exactly the four integer totals — the sums of
the `openInterest` and `volume` columns, computed independently for the
calls table and the puts table, with a missing value contributing `0`. -/
theorem claim_C8 (calls puts : Table)
    (h1 : "openInterest" ∈ calls.cols) (h2 : "volume" ∈ calls.cols)
    (h3 : "openInterest" ∈ puts.cols) (h4 : "volume" ∈ puts.cols) :
    summarize calls puts = .ok
      (pyInt ((calls.rows.map (fun r =>
          (r.getD (calls.cols.indexOf "openInterest") none).getD 0)).sum),
       pyInt ((calls.rows.map (fun r =>
          (r.getD (calls.cols.indexOf "volume") none).getD 0)).sum),
       pyInt ((puts.rows.map (fun r =>
          (r.getD (puts.cols.indexOf "openInterest") none).getD 0)).sum),
       pyInt ((puts.rows.map (fun r =>
          (r.getD (puts.cols.indexOf "volume") none).getD 0)).sum)) := by
  unfold summarize colSum
  simp only [h1, h2, h3, h4, if_true]
  rfl

theorem cW_oi_sum :
    (cW.rows.map (fun r =>
      (r.getD (cW.cols.indexOf "openInterest") none).getD 0)).sum = 300 := by
  simp [cW]
  norm_num

theorem cW_vol_sum :
    (cW.rows.map (fun r =>
      (r.getD (cW.cols.indexOf "volume") none).getD 0)).sum = 10 := by
  simp [cW]

theorem pW_oi_sum :
    (pW.rows.map (fun r =>
      (r.getD (pW.cols.indexOf "openInterest") none).getD 0)).sum = 15 := by
  simp [pW]
  norm_num

theorem pW_vol_sum :
    (pW.rows.map (fun r =>
      (r.getD (pW.cols.indexOf "volume") none).getD 0)).sum = 10 := by
  simp [pW]
  norm_num

theorem claim_C8_witness :
    "openInterest" ∈ cW.cols ∧ "volume" ∈ cW.cols ∧
    "openInterest" ∈ pW.cols ∧ "volume" ∈ pW.cols ∧
    summarize cW pW = .ok (300, 10, 15, 10) := by
  refine ⟨by decide, by decide, by decide, by decide, ?_⟩
  rw [claim_C8 cW pW (by decide) (by decide) (by decide) (by decide),
    cW_oi_sum, cW_vol_sum, pW_oi_sum, pW_vol_sum]
  rfl

/-- C9: `format_table` fails with `InvalidSortColumn` exactly when the sort
column is not among the projected and renamed columns of the input table;
when it is among them, the pipeline succeeds (no error of any kind). -/
theorem claim_C9 (raw : Table) (b : String) (asc : Bool) :
    (format_table raw b asc = .error (.InvalidSortColumn b) ↔
      b ∉ projectedRenamedCols raw) ∧
    (b ∈ projectedRenamedCols raw → ∃ d, format_table raw b asc = .ok d) := by
  unfold format_table projectedRenamedCols sortValues
  by_cases hb : b ∈ (projectRename raw (mkRenameMap (presentCols raw))).cols
  · simp [hb, Except.map]
  · simp [hb, Except.map]

theorem claim_C9_witness :
    "Strike" ∈ projectedRenamedCols cW ∧
    "volume" ∉ projectedRenamedCols cW ∧
    (∃ d, format_table cW "Strike" true = .ok d) ∧
    format_table cW "volume" true = .error (.InvalidSortColumn "volume") :=
  ⟨by decide, by decide,
    (claim_C9 cW "Strike" true).2 (by decide),
    (claim_C9 cW "volume" true).1.mpr (by decide)⟩

theorem lookup_append {α : Type} [BEq α] (l₁ l₂ : List (α × String)) (c : α) :
    (l₁ ++ l₂).lookup c =
      match l₁.lookup c with
      | some v => some v
      | none => l₂.lookup c := by
  induction l₁ with
  | nil => simp [List.lookup]
  | cons p l ih =>
      rcases p with ⟨k, v⟩
      by_cases h : c == k
      · simp [List.lookup, h]
      · simp only [List.cons_append, List.lookup, h]
        exact ih

theorem lookup_pairs (l : List String) (f : String → String) (c : String) :
    (l.map (fun g => (g, f g))).lookup c =
      if c ∈ l then some (f c) else none := by
  induction l with
  | nil => simp [List.lookup]
  | cons a l ih =>
      by_cases h : c = a
      · subst h
        simp [List.lookup]
      · have hb : (c == a) = false := by simp [h]
        simp only [List.map_cons, List.lookup, hb, List.mem_cons]
        rw [ih]
        simp [h]

/-- The script's rename dictionary agrees with the specification's fixed
mapping on the base columns and on every optional Greek column present in
the list it was built from. -/
theorem renameCol_mkRenameMap_base (cols : List String) (c : String)
    (hc : c ∈ base_cols) : renameCol (mkRenameMap cols) c = fixedRename c := by
  simp only [base_cols, List.mem_cons, List.not_mem_nil, or_false] at hc
  rcases hc with rfl | rfl | rfl | rfl | rfl <;> rfl

theorem renameCol_mkRenameMap_greek_mem (cols : List String) (g : String)
    (hg : g ∈ optional_cols) (hin : g ∈ cols) :
    renameCol (mkRenameMap cols) g = g.capitalize := by
  have hfil : g ∈ optional_cols.filter (fun x => x ∈ cols) :=
    List.mem_filter.mpr ⟨hg, by simpa using hin⟩
  simp only [optional_cols, List.mem_cons, List.not_mem_nil, or_false] at hg
  unfold renameCol mkRenameMap
  rw [lookup_append, lookup_pairs]
  rcases hg with rfl | rfl | rfl | rfl <;> simp [hfil, baseRenameMap, List.lookup]

theorem renameCol_mkRenameMap_greek_not_mem (cols : List String) (g : String)
    (hg : g ∈ optional_cols) (hnot : g ∉ cols) :
    renameCol (mkRenameMap cols) g = g := by
  have hfil : g ∉ optional_cols.filter (fun x => x ∈ cols) := by
    intro hmem
    exact hnot (by simpa using (List.mem_filter.mp hmem).2)
  simp only [optional_cols, List.mem_cons, List.not_mem_nil, or_false] at hg
  unfold renameCol mkRenameMap
  rw [lookup_append, lookup_pairs]
  rcases hg with rfl | rfl | rfl | rfl <;> simp [hfil, baseRenameMap, List.lookup]

theorem fixedRename_greek (g : String) (hg : g ∈ optional_cols) :
    fixedRename g = g.capitalize := by
  simp only [optional_cols, List.mem_cons, List.not_mem_nil, or_false] at hg
  rcases hg with rfl | rfl | rfl | rfl <;> rfl

-- Column labels survive every stage after the rename.

theorem applyFmt_cols (t : DTable) (c : String) (f : Option ℚ → String) :
    (applyFmt t c f).cols = t.cols := rfl

theorem foldl_applyFmt_cols (steps : List (String × (Option ℚ → String)))
    (acc : DTable) :
    (steps.foldl (fun a p => applyFmt a p.1 p.2) acc).cols = acc.cols := by
  induction steps generalizing acc with
  | nil => rfl
  | cons p steps ih => rw [List.foldl_cons, ih, applyFmt_cols]

theorem formatDisplay_cols (t : Table) : (formatDisplay t).cols = t.cols := by
  unfold formatDisplay
  rw [foldl_applyFmt_cols]
  rfl

theorem sortValues_mem_ok (t : Table) (b : String) (asc : Bool)
    (hb : b ∈ t.cols) :
    ∃ s, sortValues t b asc = .ok s ∧ s.cols = t.cols := by
  unfold sortValues
  simp only [hb, if_true]
  exact ⟨_, rfl, rfl⟩

theorem projectRename_cols (raw : Table) (m : List (String × String)) :
    (projectRename raw m).cols = (presentCols raw).map (renameCol m) := rfl

/-- C7 fails on the puts path: the script renames the puts table with the
dictionary built from the calls table (source line 270), so when the puts
table has a Greek column the calls table lacks, that column keeps its
lowercase name — the output column set is NOT the fixed renaming of the
projected columns (and the unrenamed column also escapes the Greek
formatting, staying numeric). -/
theorem claim_C7_counterexample :
    format_table_puts cNoGreek pGreek "Strike" true =
      .ok { cols := ["Strike", "Premium", "delta"],
            rows := [[Cell.num (some 1), Cell.str "$2.00", Cell.num (some 3)]] } ∧
    ["Strike", "Premium", "delta"] ≠ (presentCols pGreek).map fixedRename := by
  constructor
  · decide
  · decide

/-- C7 (amended): for every input table the output column set is exactly the
columns of the fixed ordered list present in the input, in that fixed order,
and no error is raised; on the calls path they are renamed per the fixed
mapping.  On the puts path the script reuses the rename dictionary built
from the calls table: base columns, and Greek columns also present in the
calls table, still get the fixed renaming, but a Greek column present only
in the puts table keeps its lowercase name. -/
theorem claim_C7_amended (callsRaw putsRaw : Table) (b b2 : String)
    (asc asc2 : Bool)
    (hb : b ∈ projectedRenamedCols callsRaw)
    (hb2 : b2 ∈ (projectRename putsRaw (mkRenameMap (presentCols callsRaw))).cols) :
    (∃ d, format_table callsRaw b asc = .ok d ∧
       d.cols = (presentCols callsRaw).map fixedRename) ∧
    (∃ d2, format_table_puts callsRaw putsRaw b2 asc2 = .ok d2 ∧
       d2.cols = (presentCols putsRaw).map
         (renameCol (mkRenameMap (presentCols callsRaw)))) ∧
    (∀ c ∈ presentCols putsRaw, c ∈ base_cols ∨ c ∈ callsRaw.cols →
       renameCol (mkRenameMap (presentCols callsRaw)) c = fixedRename c) ∧
    (∀ g ∈ optional_cols, g ∉ callsRaw.cols →
       renameCol (mkRenameMap (presentCols callsRaw)) g = g) := by
  have hmap : ∀ c ∈ presentCols callsRaw,
      renameCol (mkRenameMap (presentCols callsRaw)) c = fixedRename c := by
    intro c hc
    have hc2 := List.mem_filter.mp hc
    rcases List.mem_append.mp hc2.1 with hcb | hco
    · exact renameCol_mkRenameMap_base _ c hcb
    · rw [renameCol_mkRenameMap_greek_mem _ c hco hc, fixedRename_greek c hco]
  refine ⟨?_, ?_, ?_, ?_⟩
  · obtain ⟨s, hs, hcols⟩ := sortValues_mem_ok _ b asc hb
    refine ⟨formatDisplay s, ?_, ?_⟩
    · unfold format_table
      rw [hs]
      rfl
    · rw [formatDisplay_cols, hcols, projectRename_cols]
      exact List.map_congr_left hmap
  · obtain ⟨s, hs, hcols⟩ := sortValues_mem_ok _ b2 asc2 hb2
    refine ⟨formatDisplay s, ?_, ?_⟩
    · unfold format_table_puts
      rw [hs]
      rfl
    · rw [formatDisplay_cols, hcols, projectRename_cols]
  · intro c hc hor
    rcases hor with hcb | hcc
    · exact renameCol_mkRenameMap_base _ c hcb
    · have hc2 := List.mem_filter.mp hc
      rcases List.mem_append.mp hc2.1 with hcb | hco
      · exact renameCol_mkRenameMap_base _ c hcb
      · have hinc : c ∈ presentCols callsRaw := by
          unfold presentCols
          rw [List.mem_filter]
          exact ⟨List.mem_append.mpr (.inr hco), by simpa using hcc⟩
        rw [renameCol_mkRenameMap_greek_mem (presentCols callsRaw) c hco hinc,
          fixedRename_greek c hco]
  · intro g hg hnot
    apply renameCol_mkRenameMap_greek_not_mem _ g hg
    intro hmem
    exact hnot (by simpa using (List.mem_filter.mp hmem).2)

theorem claim_C7_amended_witness :
    "Strike" ∈ projectedRenamedCols cNoGreek ∧
    "Strike" ∈ (projectRename pGreek (mkRenameMap (presentCols cNoGreek))).cols ∧
    (∃ d, format_table cNoGreek "Strike" true = .ok d ∧
       d.cols = (presentCols cNoGreek).map fixedRename) ∧
    (∃ d2, format_table_puts cNoGreek pGreek "Strike" false = .ok d2 ∧
       d2.cols = (presentCols pGreek).map
         (renameCol (mkRenameMap (presentCols cNoGreek)))) :=
  ⟨by decide, by decide,
    (claim_C7_amended cNoGreek pGreek "Strike" "Strike" true false
      (by decide) (by decide)).1,
    (claim_C7_amended cNoGreek pGreek "Strike" "Strike" true false
      (by decide) (by decide)).2.1⟩

/-- C5 fails on the code when a sort-column value is missing: pandas puts
rows with a missing sort key last for BOTH directions
(`na_position='last'`), so on a table whose sort column holds the duplicate-
free values `[1, missing]` the descending output equals the ascending
output instead of its reverse. -/
theorem claim_C5_counterexample :
    sortKeys tMix "Premium" = [some 1, none] ∧
    (sortKeys tMix "Premium").Nodup ∧
    format_table tMix "Premium" true =
      .ok { cols := ["Strike", "Premium"],
            rows := [[Cell.num (some 5), Cell.str "$1.00"],
                     [Cell.num (some 6), Cell.str "N/A"]] } ∧
    format_table tMix "Premium" false =
      .ok { cols := ["Strike", "Premium"],
            rows := [[Cell.num (some 5), Cell.str "$1.00"],
                     [Cell.num (some 6), Cell.str "N/A"]] } ∧
    [[Cell.num (some 5), Cell.str "$1.00"], [Cell.num (some 6), Cell.str "N/A"]] ≠
      [[Cell.num (some 5), Cell.str "$1.00"],
       [Cell.num (some 6), Cell.str "N/A"]].reverse := by
  refine ⟨by decide, by decide, by decide, by decide, by decide⟩

theorem format_table_eq (raw : Table) (b : String) (asc : Bool) :
    format_table raw b asc =
      (sortValues (renamedTable raw) b asc).map formatDisplay := rfl

theorem foldl_applyFmt_rows (steps : List (String × (Option ℚ → String)))
    (acc : DTable) :
    (steps.foldl (fun a p => applyFmt a p.1 p.2) acc).rows =
      acc.rows.map
        (fun r => steps.foldl (fun rr p => applyFmtRow acc.cols p.1 p.2 rr) r) := by
  induction steps generalizing acc with
  | nil => simp
  | cons p steps ih =>
      rw [List.foldl_cons]
      rw [ih (applyFmt acc p.1 p.2)]
      simp [applyFmt, List.map_map, Function.comp]

/-- The whole formatting pass is a per-row map: rows are neither reordered,
dropped nor duplicated by formatting. -/
theorem formatDisplay_rows (t : Table) :
    (formatDisplay t).rows =
      t.rows.map (fun r =>
        fmtSteps.foldl (fun rr p => applyFmtRow t.cols p.1 p.2 rr)
          (r.map Cell.num)) := by
  unfold formatDisplay
  rw [foldl_applyFmt_rows]
  simp [toDTable, List.map_map, Function.comp]

/-- Sorting a permutation of a duplicate-free-keyed row list gives the same
result: the sorted order is unique. -/
theorem insertionSort_eq_of_perm (i : Nat) (l l' : List RawRow)
    (hperm : List.Perm l' l)
    (hnd : (l.map (keyAt i)).Nodup) :
    List.insertionSort (rowLe i) l' = List.insertionSort (rowLe i) l := by
  haveI : IsTotal RawRow (rowLe i) := ⟨fun a b => le_total _ _⟩
  haveI : IsTrans RawRow (rowLe i) := ⟨fun a b c hab hbc => le_trans hab hbc⟩
  haveI : IsAntisymm RawRow (fun a b => keyAt i a < keyAt i b) :=
    ⟨fun a b h1 h2 => absurd h2 (lt_asymm h1)⟩
  have p1 : (List.insertionSort (rowLe i) l').Perm l :=
    (List.perm_insertionSort _ l').trans hperm
  have p2 : (List.insertionSort (rowLe i) l).Perm l :=
    List.perm_insertionSort _ l
  have strict : ∀ m : List RawRow, m.Perm l → List.Sorted (rowLe i) m →
      List.Sorted (fun a b => keyAt i a < keyAt i b) m := by
    intro m hm hs
    have ndm : (m.map (keyAt i)).Nodup := (hm.map (keyAt i)).nodup_iff.mpr hnd
    have hne : m.Pairwise (fun a b => keyAt i a ≠ keyAt i b) :=
      List.pairwise_map.mp ndm
    exact (hs.and hne).imp (fun h => lt_of_le_of_ne h.1 h.2)
  exact List.eq_of_perm_of_sorted (p1.trans p2.symm)
    (strict _ p1 (List.sorted_insertionSort _ l'))
    (strict _ p2 (List.sorted_insertionSort _ l))

/-- When every sort key is present and the keys are duplicate-free, the
descending sort is exactly the reverse of the ascending sort. -/
theorem sortValues_desc_reverse (t : Table) (b : String)
    (hb : b ∈ t.cols)
    (hnm : ∀ r ∈ t.rows, (r.getD (t.cols.indexOf b) none).isSome = true)
    (hnd : (t.rows.map (keyAt (t.cols.indexOf b))).Nodup) :
    ∃ rowsA, sortValues t b true = .ok { cols := t.cols, rows := rowsA } ∧
      sortValues t b false = .ok { cols := t.cols, rows := rowsA.reverse } := by
  unfold sortValues
  simp only [hb, if_true]
  have hfil1 : t.rows.filter
      (fun r => (r.getD (t.cols.indexOf b) none).isSome) = t.rows :=
    List.filter_eq_self.mpr hnm
  have hfil2 : t.rows.filter
      (fun r => !(r.getD (t.cols.indexOf b) none).isSome) = [] := by
    rw [List.filter_eq_nil_iff]
    intro r hr
    have h := hnm r hr
    have hne : r.getD (t.cols.indexOf b) none ≠ none := by
      intro hcontra
      rw [hcontra] at h
      simp at h
    rw [List.getD_eq_getElem?_getD] at hne
    simp [hne]
  rw [hfil1, hfil2]
  refine ⟨List.insertionSort (rowLe (t.cols.indexOf b)) t.rows, by simp, ?_⟩
  rw [insertionSort_eq_of_perm (t.cols.indexOf b) t.rows t.rows.reverse
    (List.reverse_perm t.rows) hnd]
  simp

/-- C5 (amended): for every input table whose sort column contains no
duplicate values AND no missing values, sorting ascending and sorting
descending produce exactly reversed orderings of the same rows.  (With a
missing sort value the claim fails: pandas keeps missing-key rows last in
both directions.) -/
theorem claim_C5_amended (raw : Table) (b : String)
    (hb : b ∈ projectedRenamedCols raw)
    (hnm : ∀ k ∈ sortKeys raw b, k.isSome = true)
    (hnd : (sortKeys raw b).Nodup) :
    ∃ dA dD, format_table raw b true = .ok dA ∧
      format_table raw b false = .ok dD ∧
      dD.rows = dA.rows.reverse := by
  have hb' : b ∈ (renamedTable raw).cols := hb
  have hnm' : ∀ r ∈ (renamedTable raw).rows,
      (r.getD ((renamedTable raw).cols.indexOf b) none).isSome = true := by
    intro r hr
    exact hnm _ (List.mem_map_of_mem _ hr)
  have hnd' : ((renamedTable raw).rows.map
      (keyAt ((renamedTable raw).cols.indexOf b))).Nodup := by
    have hopt : (renamedTable raw).rows.Pairwise
        (fun a c => a.getD ((renamedTable raw).cols.indexOf b) none ≠
          c.getD ((renamedTable raw).cols.indexOf b) none) :=
      List.pairwise_map.mp hnd
    refine List.pairwise_map.mpr (List.Pairwise.imp_of_mem ?_ hopt)
    intro a c ha hc hne hkey
    apply hne
    obtain ⟨x, hx⟩ := Option.isSome_iff_exists.mp (hnm' a ha)
    obtain ⟨y, hy⟩ := Option.isSome_iff_exists.mp (hnm' c hc)
    rw [hx, hy]
    unfold keyAt at hkey
    rw [hx, hy] at hkey
    simpa using hkey
  obtain ⟨rowsA, hA, hD⟩ := sortValues_desc_reverse (renamedTable raw) b hb'
    hnm' hnd'
  refine ⟨formatDisplay { cols := (renamedTable raw).cols, rows := rowsA },
    formatDisplay { cols := (renamedTable raw).cols, rows := rowsA.reverse },
    ?_, ?_, ?_⟩
  · rw [format_table_eq, hA]
    rfl
  · rw [format_table_eq, hD]
    rfl
  · rw [formatDisplay_rows, formatDisplay_rows]
    simp [List.map_reverse]

theorem cellSpec_find (c : String) (v : Option ℚ) :
    (match fmtSteps.find? (fun p => p.1 == c) with
     | some p => cellMap p.2 (Cell.num v)
     | none => Cell.num v) = cellSpec c v := by
  by_cases h1 : c = "Premium"
  · subst h1; rfl
  by_cases h2 : c = "Volume"
  · subst h2; rfl
  by_cases h3 : c = "OI"
  · subst h3; rfl
  by_cases h4 : c = "IV"
  · subst h4; rfl
  by_cases h5 : c = "Delta"
  · subst h5; rfl
  by_cases h6 : c = "Theta"
  · subst h6; rfl
  by_cases h7 : c = "Gamma"
  · subst h7; rfl
  by_cases h8 : c = "Vega"
  · subst h8; rfl
  have hfind : fmtSteps.find? (fun p => p.1 == c) = none := by
    rw [List.find?_eq_none]
    intro x hx
    simp only [fmtSteps, List.mem_cons, List.not_mem_nil, or_false] at hx
    rcases hx with rfl | rfl | rfl | rfl | rfl | rfl | rfl | rfl <;>
      simp only [beq_iff_eq] <;>
      intro hh <;>
      exact absurd hh.symm (by assumption)
  rw [hfind]
  unfold cellSpec
  simp [h1, h2, h3, h4, h5, h6, h7, h8]

theorem applyFmtRow_length (cols : List String) (c : String)
    (f : Option ℚ → String) (r : List Cell) :
    (applyFmtRow cols c f r).length = r.length := by
  unfold applyFmtRow
  by_cases hc : c ∈ cols
  · simp [hc]
  · simp [hc]

theorem foldl_applyFmtRow_length
    (steps : List (String × (Option ℚ → String))) (cols : List String)
    (acc : List Cell) :
    (steps.foldl (fun rr p => applyFmtRow cols p.1 p.2 rr) acc).length =
      acc.length := by
  induction steps generalizing acc with
  | nil => rfl
  | cons p rest ih =>
      rw [List.foldl_cons, ih, applyFmtRow_length]

/-- Value of the formatter chain at one position: the first step whose
column name is the label at that position is applied to the original cell,
once; positions whose label no step names are untouched. -/
theorem foldl_applyFmtRow_getElem?
    (steps : List (String × (Option ℚ → String))) (cols : List String)
    (hnd : cols.Nodup) (acc : List Cell) (hlen : acc.length = cols.length)
    (j : Nat) (hj : j < cols.length)
    (hnames : (steps.map Prod.fst).Nodup) :
    (steps.foldl (fun rr p => applyFmtRow cols p.1 p.2 rr) acc)[j]? =
      match steps.find? (fun p => p.1 == cols[j]) with
      | some p => some (cellMap p.2 (acc.getD j (.num none)))
      | none => acc[j]? := by
  induction steps generalizing acc with
  | nil => rfl
  | cons p rest ih =>
      rcases p with ⟨c, f⟩
      rw [List.foldl_cons]
      rw [List.map_cons] at hnames
      have hnames2 := List.nodup_cons.mp hnames
      have hlen2 : (applyFmtRow cols c f acc).length = cols.length := by
        rw [applyFmtRow_length]
        exact hlen
      rw [ih (applyFmtRow cols c f acc) hlen2 hnames2.2]
      by_cases hceq : c = cols[j]
      · have hfind : List.find? (fun p => p.1 == cols[j]) ((c, f) :: rest) =
            some (c, f) := by
          simp [List.find?, hceq]
        have hrestnone : rest.find? (fun p => p.1 == cols[j]) = none := by
          rw [List.find?_eq_none]
          intro x hx
          simp only [beq_iff_eq]
          intro hx1
          apply hnames2.1
          rw [hceq, ← hx1]
          exact List.mem_map.mpr ⟨x, hx, rfl⟩
        rw [hfind, hrestnone]
        have hcmem : c ∈ cols := hceq ▸ List.getElem_mem hj
        have hidx : cols.indexOf c = j := by
          rw [hceq]
          exact List.indexOf_getElem hnd j hj
        unfold applyFmtRow
        simp only [hcmem, if_true, hidx]
        exact List.getElem?_set_self (by omega)
      · have hfind : List.find? (fun p => p.1 == cols[j]) ((c, f) :: rest) =
            rest.find? (fun p => p.1 == cols[j]) := by
          have : ((c == cols[j]) : Bool) = false := by
            simp [hceq]
          simp [List.find?, this]
        rw [hfind]
        have hsame? : (applyFmtRow cols c f acc)[j]? = acc[j]? := by
          unfold applyFmtRow
          by_cases hc : c ∈ cols
          · simp only [hc, if_true]
            apply List.getElem?_set_ne
            intro hij
            apply hceq
            have hgi : cols[List.indexOf c cols]? = some c :=
              List.getElem?_indexOf hc
            rw [hij, List.getElem?_eq_getElem hj] at hgi
            exact (Option.some_inj.mp hgi).symm
          · simp [hc]
        have hsameD : (applyFmtRow cols c f acc).getD j (.num none) =
            acc.getD j (.num none) := by
          rw [List.getD_eq_getElem?_getD, List.getD_eq_getElem?_getD, hsame?]
        rw [hsame?, hsameD]

/-- Applying the script's whole formatter chain to one (rectangular) row is
the specification's per-cell formatting: position by position, the label's
formula. -/
theorem formatRow_eq_spec (cols : List String) (hnd : cols.Nodup)
    (r : RawRow) (hlen : r.length = cols.length) :
    fmtSteps.foldl (fun rr p => applyFmtRow cols p.1 p.2 rr) (r.map Cell.num) =
      List.zipWith cellSpec cols r := by
  apply List.ext_getElem?
  intro j
  by_cases hj : j < cols.length
  · have hjr : j < r.length := by omega
    rw [foldl_applyFmtRow_getElem? fmtSteps cols hnd (r.map Cell.num)
      (by simp [hlen]) j hj (by decide)]
    have hmapD : (r.map Cell.num).getD j (.num none) = Cell.num r[j] := by
      rw [List.getD_eq_getElem?_getD, List.getElem?_map,
        List.getElem?_eq_getElem hjr]
      rfl
    have hmap? : (r.map Cell.num)[j]? = some (Cell.num r[j]) := by
      rw [List.getElem?_map, List.getElem?_eq_getElem hjr]
      rfl
    have hzip : (List.zipWith cellSpec cols r)[j]? =
        some (cellSpec cols[j] r[j]) := by
      rw [List.getElem?_zipWith, List.getElem?_eq_getElem hj,
        List.getElem?_eq_getElem hjr]
    rw [hmapD, hmap?, hzip, ← cellSpec_find cols[j] r[j]]
    cases hfind : fmtSteps.find? (fun p => p.1 == cols[j]) with
    | none => rfl
    | some p => rfl
  · have hlenf : (fmtSteps.foldl (fun rr p => applyFmtRow cols p.1 p.2 rr)
        (r.map Cell.num)).length = cols.length := by
      rw [foldl_applyFmtRow_length, List.length_map, hlen]
    rw [List.getElem?_eq_none (by omega), List.getElem?_eq_none]
    rw [List.length_zipWith]
    omega

/-- The script's formatting pass (source lines 244-256) equals per-row,
per-cell application of the specification's formulas, on any table with
distinct column labels and rectangular rows. -/
theorem formatDisplay_eq_spec (t : Table) (hnd : t.cols.Nodup)
    (hrect : ∀ r ∈ t.rows, r.length = t.cols.length) :
    formatDisplay t =
      { cols := t.cols,
        rows := t.rows.map (fun r => List.zipWith cellSpec t.cols r) } := by
  have hstart : formatDisplay t =
      { cols := (formatDisplay t).cols, rows := (formatDisplay t).rows } := rfl
  rw [hstart, formatDisplay_cols, formatDisplay_rows]
  congr 1
  apply List.map_congr_left
  intro r hr
  exact formatRow_eq_spec t.cols hnd r (hrect r hr)

theorem renamedTable_cols (raw : Table) :
    (renamedTable raw).cols = (presentCols raw).map fixedRename := by
  rw [show (renamedTable raw).cols =
    (presentCols raw).map (renameCol (mkRenameMap (presentCols raw))) from rfl]
  apply List.map_congr_left
  intro c hc
  have hc2 := List.mem_filter.mp hc
  rcases List.mem_append.mp hc2.1 with hcb | hco
  · exact renameCol_mkRenameMap_base _ c hcb
  · rw [renameCol_mkRenameMap_greek_mem (presentCols raw) c hco hc,
      fixedRename_greek c hco]

theorem renamedTable_cols_nodup (raw : Table) :
    (renamedTable raw).cols.Nodup := by
  rw [renamedTable_cols]
  have hsub : (presentCols raw).Sublist (base_cols ++ optional_cols) :=
    List.filter_sublist _
  have hmapsub : ((presentCols raw).map fixedRename).Sublist
      ((base_cols ++ optional_cols).map fixedRename) := hsub.map fixedRename
  have hnd : ((base_cols ++ optional_cols).map fixedRename).Nodup := by
    decide
  exact hnd.sublist hmapsub

theorem renamedTable_rect (raw : Table) :
    ∀ r ∈ (renamedTable raw).rows, r.length = (renamedTable raw).cols.length := by
  intro r hr
  obtain ⟨r0, _, rfl⟩ := List.mem_map.mp hr
  simp [renamedTable, projectRename, select, rename, List.length_map]

/-- Sorting only rearranges rows: every output row is an input row. -/
theorem sortValues_rows_mem (t : Table) (b : String) (asc : Bool)
    (s : Table) (hs : sortValues t b asc = .ok s) :
    ∀ r ∈ s.rows, r ∈ t.rows := by
  unfold sortValues at hs
  by_cases hb : b ∈ t.cols
  · simp only [hb, if_true] at hs
    injection hs with hs
    subst hs
    intro r hr
    rcases List.mem_append.mp hr with hr1 | hr2
    · by_cases hasc : asc
      · rw [if_pos hasc] at hr1
        exact List.mem_filter.mp
          ((List.perm_insertionSort _ _).mem_iff.mp hr1) |>.1
      · rw [if_neg hasc] at hr1
        rw [List.mem_reverse] at hr1
        have := (List.perm_insertionSort _ _).mem_iff.mp hr1
        rw [List.mem_reverse] at this
        exact (List.mem_filter.mp this).1
    · exact (List.mem_filter.mp hr2).1
  · simp [hb] at hs

/-- C6: formatting is applied only after sorting — the display table is the
sorted table with the specification's per-cell formula (`cellSpec`: Premium
as `"$"` plus 2 decimals or `"N/A"`, Volume/OI as comma-grouped integers or
`"0"`, IV as value×100 with 1 decimal plus `"%"` or `"N/A"`, the Greeks
with 4 decimals or `"N/A"`) applied cell by cell, so the row order
established by the numeric sort is unchanged by formatting. -/
theorem claim_C6 (raw : Table) (b : String) (asc : Bool)
    (hb : b ∈ projectedRenamedCols raw) :
    ∃ s, sortValues (renamedTable raw) b asc = .ok s ∧
      format_table raw b asc = .ok
        { cols := s.cols,
          rows := s.rows.map (fun r => List.zipWith cellSpec s.cols r) } := by
  obtain ⟨s, hs, hcols⟩ := sortValues_mem_ok (renamedTable raw) b asc hb
  refine ⟨s, hs, ?_⟩
  rw [format_table_eq, hs]
  have heq : formatDisplay s =
      { cols := s.cols,
        rows := s.rows.map (fun r => List.zipWith cellSpec s.cols r) } := by
    apply formatDisplay_eq_spec
    · rw [hcols]
      exact renamedTable_cols_nodup raw
    · intro r hr
      rw [hcols]
      exact renamedTable_rect raw r (sortValues_rows_mem _ b asc s hs r hr)
  rw [show (Except.ok s).map formatDisplay =
    (Except.ok (formatDisplay s) : Except Err DTable) from rfl, heq]

theorem claim_C6_witness :
    "Premium" ∈ projectedRenamedCols cW ∧
    (∃ s, sortValues (renamedTable cW) "Premium" true = .ok s ∧
      format_table cW "Premium" true = .ok
        { cols := s.cols,
          rows := s.rows.map (fun r => List.zipWith cellSpec s.cols r) }) :=
  ⟨by decide, claim_C6 cW "Premium" true (by decide)⟩

theorem claim_C5_amended_witness :
    "Premium" ∈ projectedRenamedCols tC5 ∧
    (∀ k ∈ sortKeys tC5 "Premium", k.isSome = true) ∧
    (sortKeys tC5 "Premium").Nodup ∧
    (∃ dA dD, format_table tC5 "Premium" true = .ok dA ∧
      format_table tC5 "Premium" false = .ok dD ∧
      dD.rows = dA.rows.reverse) :=
  ⟨by decide, by decide, by decide,
    claim_C5_amended tC5 "Premium" (by decide) (by decide) (by decide)⟩
